import Mathlib

/-!
A shallow embedding of the consensus core of the `my-blockchain` node
(`Transaction.js`, the `Block`/`UTXOSet` module, the `Blockchain` chain
manager and the `P2PNetwork` gossip layer), together with theorems that
settle the specification claims about it.

Conventions of the embedding:
* JS `Map` objects become insertion-ordered association lists (`mapGet`,
  `mapSet`), matching `Map.get` / `Map.set` semantics.
* JS numbers that hold integral amounts, fees, indices and timestamps
  become `Int` (or `Nat` where the source never goes negative).
* `Date.now()` and `Math.random()`-derived values are modelled as input
  streams (`EnvG`): each call reads the stream at the current tick and
  advances the tick.
* Exceptions become `Except` values; a caught exception corresponds to
  matching on `.error`.
* Cryptographic primitives (SHA-256, RIPEMD-160, secp256k1 recovery) and
  the JSON serializer are free parameters collected in `Crypto`; the
  embedding is proved for every instantiation unless a theorem needs a
  concrete one.
-/

set_option maxRecDepth 10000

deriving instance DecidableEq for Except

namespace MyBlockchain

/-! ## JS `Map` as an insertion-ordered association list -/

/-- `Map.get`: first entry with the key, if any. -/
def mapGet {α : Type} (m : List (String × α)) (k : String) : Option α :=
  (m.find? (fun p => p.1 == k)).map (fun p => p.2)

/-- `Map.set`: replace in place when the key is present, else append
(JS `Map` preserves insertion order). -/
def mapSet {α : Type} (m : List (String × α)) (k : String) (v : α) : List (String × α) :=
  if (m.find? (fun p => p.1 == k)).isSome then
    m.map (fun p => if p.1 == k then (k, v) else p)
  else
    m ++ [(k, v)]

/-! ## Transactions (`Transaction.js`) -/

/-- The `{r, s, recoveryId}` object written by `signTransaction`. -/
structure Signature where
  r : String
  s : String
  recoveryId : Nat
deriving DecidableEq, Repr

/-- A `Transaction` instance.  `fromAddress = none` models the JS `null`
of a coinbase; `toAddress` is likewise nullable in JS.  `signature = none`
models an unsigned transaction. -/
structure Transaction where
  fromAddress : Option String
  toAddress : Option String
  amount : Int
  fee : Int
  timestamp : Int
  signature : Option Signature
  txId : String
deriving DecidableEq, Repr

/-! ## Crypto and serialization oracles -/

/-- The external cryptographic primitives used by the node, left abstract:
`sha256s` is `crypto.createHash('sha256').update(string).digest('hex')`,
`sha256b` is `@cosmjs/crypto`'s `Sha256` over bytes, `ripemd160` is
`crypto.createHash('ripemd160')` over bytes, `ecdsaRecover` is
`secp256k1.ecdsaRecover` (which throws on bad input, hence `Except`), and
`serTxs` is `JSON.stringify` applied to a transaction array. -/
structure Crypto where
  sha256s : String → String
  sha256b : List Nat → List Nat
  ripemd160 : List Nat → List Nat
  ecdsaRecover : List Nat → Nat → List Nat → Except String (List Nat)
  serTxs : List Transaction → String

/-! ## Hex codec (`@cosmjs/encoding` `fromHex` / `toHex`) -/

/-- Value of one lowercase hex digit, as accepted by `fromHex`. -/
def hexDigitVal (c : Char) : Option Nat :=
  if '0' ≤ c ∧ c ≤ '9' then some (c.toNat - '0'.toNat)
  else if 'a' ≤ c ∧ c ≤ 'f' then some (c.toNat - 'a'.toNat + 10)
  else none

/-- Decode a list of hex characters two at a time; `fromHex` throws on an
odd length or a non-hex character. -/
def hexDecodeChars : List Char → Except String (List Nat)
  | [] => .ok []
  | [_] => .error "hex string length must be a multiple of 2"
  | c1 :: c2 :: rest =>
    match hexDigitVal c1, hexDigitVal c2 with
    | some h, some l => (hexDecodeChars rest).map (fun bs => (16 * h + l) :: bs)
    | _, _ => .error "invalid hex character"

/-- `fromHex`. -/
def fromHex (s : String) : Except String (List Nat) :=
  hexDecodeChars s.data

def hexDigitChar (n : Nat) : Char :=
  if n < 10 then Char.ofNat ('0'.toNat + n) else Char.ofNat ('a'.toNat + n - 10)

/-- `toHex`: two lowercase hex digits per byte. -/
def toHex (bs : List Nat) : String :=
  String.mk (bs.flatMap (fun b => [hexDigitChar (b / 16), hexDigitChar (b % 16)]))

/-! ## Transaction methods -/

/-- The string hashed by `Transaction.calculateHash`:
`(fromAddress || '') + (toAddress || '') + amount + fee + timestamp`
(JS `||` turns `null` into `''`; numbers are stringified). -/
def Transaction.hashInput (t : Transaction) : String :=
  (t.fromAddress.getD "") ++ (t.toAddress.getD "") ++ toString t.amount ++
    toString t.fee ++ toString t.timestamp

/-- `Transaction.calculateHash()`. -/
def Transaction.calculateHash (c : Crypto) (t : Transaction) : String :=
  c.sha256s t.hashInput

/-- `Transaction.publicKeyToAddress(publicKey)`:
`'cosmos' + ripemd160(sha256(pub)).hex.substring(0, 40)`. -/
def publicKeyToAddress (c : Crypto) (publicKey : List Nat) : String :=
  "cosmos" ++ (toHex (c.ripemd160 (c.sha256b publicKey))).take 40

/-- `Uint8Array.prototype.set(src, offset)` on a byte array: writes `src`
at `offset`, throwing a `RangeError` when it does not fit. -/
def uint8ArraySet (base src : List Nat) (offset : Nat) : Except String (List Nat) :=
  if base.length < offset + src.length then .error "offset is out of bounds"
  else .ok (base.take offset ++ src ++ base.drop (offset + src.length))

/-- The `try` block of `Transaction.isValid()`: decode the transaction
hash, rebuild the 64-byte signature from `r` and `s`, recover the public
key and compare the derived address with `fromAddress`.  Every JS
exception inside this region becomes an `Except.error`. -/
def sigRecoverRegion (c : Crypto) (t : Transaction) (sig : Signature) :
    Except String Bool := do
  let hashTx := t.calculateHash c
  let hashBytes ← fromHex hashTx
  let msgHash := c.sha256b hashBytes
  let rBytes ← fromHex sig.r
  let sBytes ← fromHex sig.s
  let sig1 ← uint8ArraySet (List.replicate 64 0) rBytes 0
  let sig2 ← uint8ArraySet sig1 sBytes 32
  let publicKey ← c.ecdsaRecover sig2 sig.recoveryId msgHash
  let derivedAddress := publicKeyToAddress c publicKey
  pure (derivedAddress == t.fromAddress.getD "")

/-- `Transaction.isValid()`.  The early returns of the source become a
nested match; `!x` on a string is emptiness, on the nullable fields it is
`none` or emptiness. -/
def Transaction.isValid (c : Crypto) (t : Transaction) : Bool :=
  match t.fromAddress with
  | none => decide (0 < t.amount)
  | some fa =>
    match t.signature with
    | none => false
    | some sig =>
      if fa = "" then false
      else
        match t.toAddress with
        | none => false
        | some ta =>
          if ta = "" then false
          else if t.amount ≤ 0 then false
          else if fa = ta then false
          else
            match sigRecoverRegion c t sig with
            | .ok b => b
            | .error _ => false

/-- Claim C6's validity predicate, written from the specification's words:
true iff the transaction is a coinbase with positive amount, or the
required fields are present, the amount is positive, sender and receiver
differ, the recovered public key derives the sender address, and `txId`
re-derives from the non-signature fields. -/
def specTxValid (c : Crypto) (t : Transaction) : Bool :=
  (t.fromAddress == none && decide (0 < t.amount)) ||
  (t.signature.isSome && (t.fromAddress.getD "") != "" && (t.toAddress.getD "") != "" &&
    t.fromAddress.isSome && t.toAddress.isSome &&
    decide (0 < t.amount) && t.fromAddress != t.toAddress &&
    (match t.signature with
     | some sig =>
       match sigRecoverRegion c t sig with
       | .ok b => b
       | .error _ => false
     | none => false) &&
    t.txId == t.calculateHash c)

/-- The amendment of claim C6: identical to `specTxValid` except that
`txId` is not examined, because `isValid` never reads it. -/
def specTxValidAmended (c : Crypto) (t : Transaction) : Bool :=
  (t.fromAddress == none && decide (0 < t.amount)) ||
  (t.signature.isSome && (t.fromAddress.getD "") != "" && (t.toAddress.getD "") != "" &&
    t.fromAddress.isSome && t.toAddress.isSome &&
    decide (0 < t.amount) && t.fromAddress != t.toAddress &&
    (match t.signature with
     | some sig =>
       match sigRecoverRegion c t sig with
       | .ok b => b
       | .error _ => false
     | none => false))

/-! ## The UTXO ledger (`UTXOSet` in the Block module)

The ledger is embedded generically in the type `ι` of output transaction
ids.  The node itself runs the instance `ι = String`; the proofs about
determinism of the rebuild (claim C9) relate that instance to an instance
whose generated ids are tagged by the tick at which they were drawn. -/

/-- One entry of `this.utxos.get(address)`: `{txId, amount, outputIndex,
timestamp}` where the timestamp is the `Date.now()` at creation. -/
structure UTXOG (ι : Type) where
  txId : ι
  amount : Int
  outputIndex : Nat
  timestamp : Nat
deriving DecidableEq, Repr

/-- The `UTXOSet` state: `utxos` maps an address to its output list,
`balances` caches a balance per address. -/
structure UTXOSetG (ι : Type) where
  utxos : List (String × List (UTXOG ι))
  balances : List (String × Int)
deriving DecidableEq, Repr

/-- A fresh `UTXOSet` (also the result of `clear()`). -/
def emptyUTXOSet {ι : Type} : UTXOSetG ι := ⟨[], []⟩

/-- The ambient sources of non-determinism: `now` is the stream of
`Date.now()` readings and `randId` the stream of `generateTxId()` results
(`Date.now().toString() + Math.random().toString(36).substr(2, 9)` in the
source).  A tick counter indexes both streams. -/
structure EnvG (ι : Type) where
  now : Nat → Nat
  randId : Nat → ι

/-- The error thrown by `spendUTXO`: `余额不足: 需要 required, 当前 current`. -/
inductive UtxoErr where
  | insufficientFunds (required current : Int)
deriving DecidableEq, Repr

/-- `UTXOSet.getBalance(address)`: the cached balance, `0` when absent. -/
def getBalance {ι : Type} (s : UTXOSetG ι) (address : String) : Int :=
  (mapGet s.balances address).getD 0

/-- `UTXOSet.addUTXO(address, txId, amount, outputIndex)`: ensure the
address has an output list, push the new output, and add `amount` to the
cached balance.  Consumes one tick for the output's `Date.now()`. -/
def addUTXO {ι : Type} (e : EnvG ι) (s : UTXOSetG ι) (k : Nat) (address : String)
    (txId : ι) (amount : Int) (outputIndex : Nat) : UTXOSetG ι × Nat :=
  let utxos0 := if (mapGet s.utxos address).isSome then s.utxos else mapSet s.utxos address []
  let u : UTXOG ι := ⟨txId, amount, outputIndex, e.now k⟩
  let utxos1 := mapSet utxos0 address ((mapGet utxos0 address).getD [] ++ [u])
  (⟨utxos1, mapSet s.balances address ((mapGet s.balances address).getD 0 + amount)⟩, k + 1)

/-- Insert an output into a list already sorted by descending amount,
before the first strictly smaller element.  Folded from the right this is
a stable sort, so it agrees with the source's
`sort((a, b) => b.amount - a.amount)` (JS `Array.prototype.sort` is
stable and a stable sort's output is unique). -/
def insertDesc {ι : Type} (u : UTXOG ι) : List (UTXOG ι) → List (UTXOG ι)
  | [] => [u]
  | v :: vs => if v.amount ≤ u.amount then u :: v :: vs else v :: insertDesc u vs

/-- `[...addressUTXOs].sort((a, b) => b.amount - a.amount)`. -/
def sortByAmountDesc {ι : Type} (l : List (UTXOG ι)) : List (UTXOG ι) :=
  l.foldr insertDesc []

/-- The greedy selection loop of `spendUTXO`: walk the sorted outputs,
stopping as soon as the selected total reaches `amount`; returns the
selected outputs and their total. -/
def selectLoop {ι : Type} : List (UTXOG ι) → Int → Int → List (UTXOG ι) × Int
  | [], _, tot => ([], tot)
  | u :: rest, amount, tot =>
    if amount ≤ tot then ([], tot)
    else
      let p := selectLoop rest amount (tot + u.amount)
      (u :: p.1, p.2)

/-- The removal step of `spendUTXO`: `findIndex` on matching
`(txId, outputIndex)` followed by `splice` (a no-op when absent). -/
def removeFirstMatch {ι : Type} [DecidableEq ι] (l : List (UTXOG ι)) (u : UTXOG ι) :
    List (UTXOG ι) :=
  match l with
  | [] => []
  | x :: xs =>
    if x.txId = u.txId ∧ x.outputIndex = u.outputIndex then xs
    else x :: removeFirstMatch xs u

/-- `UTXOSet.spendUTXO(address, amount)`.  Throws when the cached balance
is below `amount`; otherwise greedily selects outputs largest-first,
removes them, subtracts `amount` from the balance and, when the selection
overshot, mints a change output with a `generateTxId()` id at output
index 1.  (The source also returns the selected outputs and the change;
no caller in the repository reads that record, so it is omitted.) -/
def spendUTXO {ι : Type} [DecidableEq ι] (e : EnvG ι) (s : UTXOSetG ι) (k : Nat)
    (address : String) (amount : Int) : Except UtxoErr (UTXOSetG ι × Nat) :=
  let addressUTXOs := (mapGet s.utxos address).getD []
  if getBalance s address < amount then
    .error (.insufficientFunds amount (getBalance s address))
  else
    let sel := selectLoop (sortByAmountDesc addressUTXOs) amount 0
    let remaining := sel.1.foldl removeFirstMatch addressUTXOs
    let utxos1 :=
      if (mapGet s.utxos address).isSome then mapSet s.utxos address remaining else s.utxos
    let s1 : UTXOSetG ι := ⟨utxos1, mapSet s.balances address (getBalance s address - amount)⟩
    let change := sel.2 - amount
    if 0 < change then .ok (addUTXO e s1 (k + 1) address (e.randId k) change 1)
    else .ok (s1, k)

/-- JS uses the nullable `toAddress` itself as the `Map` key; the model
conflates the `null` key with `""`, which no affected claim exercises. -/
def jsKey (a : Option String) : String := a.getD ""

/-- `UTXOSet.processTransaction(transaction)`: a coinbase only credits
`toAddress`; a transfer spends `amount + fee` from the sender and then
credits `amount` to the receiver under the transaction's own id.  `inj`
embeds the transaction's `String` id into `ι` (the node runs `inj = id`). -/
def processTransaction {ι : Type} [DecidableEq ι] (inj : String → ι) (e : EnvG ι)
    (s : UTXOSetG ι) (k : Nat) (t : Transaction) : Except UtxoErr (UTXOSetG ι × Nat) :=
  match t.fromAddress with
  | none => .ok (addUTXO e s k (jsKey t.toAddress) (inj t.txId) t.amount 0)
  | some fa =>
    match spendUTXO e s k fa (t.amount + t.fee) with
    | .error err => .error err
    | .ok (s1, k1) => .ok (addUTXO e s1 k1 (jsKey t.toAddress) (inj t.txId) t.amount 0)

/-- `UTXOSet.canProcessTransaction(transaction)`. -/
def canProcessTransaction {ι : Type} (s : UTXOSetG ι) (t : Transaction) : Bool :=
  match t.fromAddress with
  | none => true
  | some fa => decide (t.amount + t.fee ≤ getBalance s fa)

/-- Apply a list of transactions in order, as the loops of
`rebuildUTXOSet`, `mineBlock` and the gossip block handlers do.  A thrown
`processTransaction` aborts the loop; the mutations made so far persist
(JS mutates the set in place). -/
def applyTxs {ι : Type} [DecidableEq ι] (inj : String → ι) (e : EnvG ι) :
    UTXOSetG ι → Nat → List Transaction → (UTXOSetG ι × Nat) × Option UtxoErr
  | s, k, [] => ((s, k), none)
  | s, k, t :: ts =>
    match processTransaction inj e s k t with
    | .ok (s1, k1) => applyTxs inj e s1 k1 ts
    | .error err => ((s, k), some err)

/-- The sum of the amounts of the outputs recorded for an address (the
quantity the cached balance is claimed to equal). -/
def utxoAmountSum {ι : Type} (s : UTXOSetG ι) (address : String) : Int :=
  (((mapGet s.utxos address).getD []).map (fun u => u.amount)).sum

/-- The node's own instantiation: output ids are plain strings. -/
abbrev UTXO := UTXOG String

/-- The node's own `UTXOSet`. -/
abbrev UTXOSet := UTXOSetG String

/-- The node's own environment: `generateTxId` yields strings. -/
abbrev Env := EnvG String

/-! ## Blocks (`Block.js`) -/

/-- A `Block` instance.  `hash` and `merkleRoot` are stored fields
(`fromJSON` overwrites them with whatever the wire carried). -/
structure Block where
  index : Int
  previousHash : String
  timestamp : Int
  transactions : List Transaction
  nonce : Int
  hash : String
  merkleRoot : String
deriving DecidableEq, Repr

/-- The string hashed by `Block.calculateHash`:
`index + previousHash + timestamp + JSON.stringify(transactions) + nonce`. -/
def Block.hashInput (c : Crypto) (b : Block) : String :=
  toString b.index ++ b.previousHash ++ toString b.timestamp ++
    c.serTxs b.transactions ++ toString b.nonce

/-- `Block.calculateHash()`. -/
def Block.calculateHash (c : Crypto) (b : Block) : String :=
  c.sha256s (b.hashInput c)

/-- `Block.hasValidHash()`. -/
def Block.hasValidHash (c : Crypto) (b : Block) : Bool :=
  b.hash == b.calculateHash c

/-- `Array(difficulty + 1).join('0')`: `difficulty` zero characters. -/
def powTarget (difficulty : Nat) : String :=
  String.mk (List.replicate difficulty '0')

/-- `Block.hasValidTransactions()` (every element is a `Transaction`
instance in the model, so the `instanceof` guard always holds). -/
def Block.hasValidTransactions (c : Crypto) (b : Block) : Bool :=
  b.transactions.all (fun t => t.isValid c)

/-! ## The chain manager (`Blockchain`) -/

/-- The mutable node state that the claims touch: the chain, the current
difficulty, the pending pool, the UTXO ledger, and the tick indexing the
environment streams.  (`miningReward`, wallet and file paths are carried
by the source object but play no role in the claims.) -/
structure Blockchain where
  chain : List Block
  difficulty : Nat
  pendingTransactions : List Transaction
  utxoSet : UTXOSet
  tick : Nat
deriving DecidableEq, Repr

/-- `Blockchain.getLatestBlock()` = `chain[chain.length - 1]`
(`none` models the JS `undefined` on an empty chain). -/
def getLatestBlock (bc : Blockchain) : Option Block :=
  bc.chain.getLast?

/-- `Blockchain.isValidNewBlock(newBlock, previousBlock)`: index link,
hash link, hash re-derivation, proof-of-work at the node's current
difficulty, and transaction validity. -/
def isValidNewBlock (c : Crypto) (difficulty : Nat) (newBlock previousBlock : Block) : Bool :=
  (newBlock.index == previousBlock.index + 1) &&
  (newBlock.previousHash == previousBlock.hash) &&
  newBlock.hasValidHash c &&
  (newBlock.hash.take difficulty == powTarget difficulty) &&
  newBlock.hasValidTransactions c

/-- The pairwise loop of `Blockchain.isValidChain(chain)` from index 1,
carrying the previous block. -/
def validFrom (c : Crypto) (difficulty : Nat) : Block → List Block → Bool
  | _, [] => true
  | prev, b :: rest => isValidNewBlock c difficulty b prev && validFrom c difficulty b rest

/-- `Blockchain.isValidChain(chain)` (the genesis entry is trusted). -/
def isValidChain (c : Crypto) (difficulty : Nat) : List Block → Bool
  | [] => true
  | b :: rest => validFrom c difficulty b rest

/-- `Blockchain.rebuildUTXOSet()`: clear the ledger, then re-process every
transaction of every block in chain order. -/
def rebuildUTXOSet (e : Env) (k : Nat) (chain : List Block) :
    (UTXOSet × Nat) × Option UtxoErr :=
  applyTxs id e emptyUTXOSet k (chain.flatMap (fun b => b.transactions))

/-- `Blockchain.replaceChain(newChain)`: adopt the candidate iff it is
strictly longer and pairwise valid, rebuilding the ledger from scratch;
report whether it was adopted.  (The rebuild call is not awaited in the
source, but its body contains no await and so runs to completion
synchronously; a throw inside it is lost in the floating promise and the
method still returns `true`, which the partial-state semantics of
`applyTxs` reproduces.) -/
def replaceChain (c : Crypto) (e : Env) (bc : Blockchain) (newChain : List Block) :
    Bool × Blockchain :=
  if decide (newChain.length > bc.chain.length) && isValidChain c bc.difficulty newChain then
    let r := rebuildUTXOSet e bc.tick newChain
    (true, { bc with chain := newChain, utxoSet := r.1.1, tick := r.1.2 })
  else (false, bc)

/-- Stable insertion for the fee sort of `selectTransactionsForBlock`. -/
def insertFeeDesc (t : Transaction) : List Transaction → List Transaction
  | [] => [t]
  | v :: vs => if v.fee ≤ t.fee then t :: v :: vs else v :: insertFeeDesc t vs

/-- `[...pendingTransactions].sort((a, b) => (b.fee || 0) - (a.fee || 0))`
(stable, like JS `sort`). -/
def sortByFeeDesc (l : List Transaction) : List Transaction :=
  l.foldr insertFeeDesc []

/-- `Blockchain.selectTransactionsForBlock(transactions)`: filter the pool
by `canProcessTransaction` against the current ledger (each transaction
checked individually), sort by descending fee, keep at most
`maxTransactions - 1 = 99`; returns the selected transactions and their
total fees. -/
def selectTransactionsForBlock (bc : Blockchain) : List Transaction × Int :=
  let sortedPending :=
    (sortByFeeDesc (bc.pendingTransactions.filter (fun t => canProcessTransaction bc.utxoSet t))).take 99
  (sortedPending, (sortedPending.map (fun t => t.fee)).sum)

/-- `Blockchain.removePendingTransactions(processedTransactions)`: drop
every pending transaction whose `txId` is in the set of truthy ids of the
processed list. -/
def removePendingTransactions (pending processed : List Transaction) : List Transaction :=
  let processedTxIds := (processed.filter (fun t => t.txId != "")).map (fun t => t.txId)
  pending.filter (fun t => !(processedTxIds.contains t.txId))

/-- `Blockchain.adjustDifficulty()`.  Fires only when the latest index is
a nonzero multiple of `difficultyAdjustmentInterval = 10`; compares the
latest timestamp against `chain[chain.length - 10].timestamp` with
`timeExpected = blockTime × 10 = 100000` ms.  (For chains shorter than 10
the JS indexing would yield `undefined` and throw; the call site only
runs right after an append, where the retarget condition forces length
≥ 11, and the theorems below restrict to that situation.) -/
def adjustDifficulty (bc : Blockchain) : Blockchain :=
  match getLatestBlock bc with
  | none => bc
  | some latest =>
    if latest.index % 10 != 0 || latest.index == 0 then bc
    else
      match bc.chain.get? (bc.chain.length - 10) with
      | none => bc
      | some prevAdjustmentBlock =>
        let timeExpected : Int := 10000 * 10
        let timeActual := latest.timestamp - prevAdjustmentBlock.timestamp
        if timeActual < timeExpected / 2 then
          { bc with difficulty := bc.difficulty + 1 }
        else if timeActual > timeExpected * 2 then
          { bc with difficulty := max 1 (bc.difficulty - 1) }
        else bc

/-- `Blockchain.addTransaction(transaction)`: reject invalid,
uncoverable, or duplicate-id transactions, else push onto the pool. -/
def addTransaction (c : Crypto) (bc : Blockchain) (t : Transaction) :
    Except String Blockchain :=
  if !(t.isValid c) then .error "invalid transaction"
  else if !(canProcessTransaction bc.utxoSet t) then .error "insufficient balance"
  else if (bc.pendingTransactions.find? (fun tx => tx.txId == t.txId)).isSome then
    .error "transaction already pending"
  else .ok { bc with pendingTransactions := bc.pendingTransactions ++ [t] }

/-! ## Gossip (`P2PNetwork`) -/

/-- A connected peer: its id (the remote IP or URL under which it was
registered) and whether its socket is in the OPEN state. -/
structure Peer where
  id : String
  openConn : Bool
deriving DecidableEq, Repr

/-- JS truthiness of a string. -/
def jsTruthy (s : String) : Bool := s != ""

/-- `P2PNetwork.broadcastMessage(type, data, excludeId)`: send to every
open peer, skipping a peer exactly when `excludeId` is truthy and equals
that peer's id; returns the recipient ids in table order. -/
def broadcastRecipients (peers : List Peer) (excludeId : Option String) : List String :=
  (peers.filter
    (fun p => !(jsTruthy (excludeId.getD "") && p.id == excludeId.getD "") && p.openConn)).map
    (fun p => p.id)

/-- `P2PNetwork.handleNewTransaction(transactionData)`: validate, admit to
the pool via `addTransaction`, and on success re-broadcast
`NEW_TRANSACTION` with `excludeId = transaction.txId`; any throw is
caught and suppresses the broadcast.  Note the handler never learns which
peer sent the message.  Returns the new node state and the broadcast
recipient ids. -/
def handleNewTransaction (c : Crypto) (bc : Blockchain) (peers : List Peer)
    (t : Transaction) : Blockchain × List String :=
  if t.isValid c && canProcessTransaction bc.utxoSet t then
    match addTransaction c bc t with
    | .ok bc1 => (bc1, broadcastRecipients peers (some t.txId))
    | .error _ => (bc, [])
  else (bc, [])

/-- `P2PNetwork.handleNewBlock(blockData)`: if the block extends the tip
validly, push it, apply its transactions to the ledger, and re-broadcast
`NEW_BLOCK` with `excludeId = newBlock.hash`; the pending pool is not
touched.  A throw inside the loop (or an empty local chain) is caught by
the handler's `try`, leaving the already-pushed chain and the partial
ledger in place and suppressing the broadcast. -/
def handleNewBlock (c : Crypto) (e : Env) (bc : Blockchain) (peers : List Peer)
    (newBlock : Block) : Blockchain × List String :=
  match getLatestBlock bc with
  | none => (bc, [])
  | some latest =>
    if isValidNewBlock c bc.difficulty newBlock latest then
      let r := applyTxs id e bc.utxoSet bc.tick newBlock.transactions
      ({ bc with chain := bc.chain ++ [newBlock], utxoSet := r.1.1, tick := r.1.2 },
        match r.2 with
        | none => broadcastRecipients peers (some newBlock.hash)
        | some _ => [])
    else (bc, [])

/-- `P2PNetwork.handleReceiveLatestBlock(blockData)`: append when the
block directly extends the tip and validates; otherwise broadcast
`REQUEST_CHAIN` (the returned flag).  The pending pool is never
touched. -/
def handleReceiveLatestBlock (c : Crypto) (e : Env) (bc : Blockchain)
    (receivedBlock : Block) : Blockchain × Bool :=
  match getLatestBlock bc with
  | none => (bc, false)
  | some latest =>
    if (receivedBlock.index == latest.index + 1) &&
        (receivedBlock.previousHash == latest.hash) then
      if isValidNewBlock c bc.difficulty receivedBlock latest then
        let r := applyTxs id e bc.utxoSet bc.tick receivedBlock.transactions
        ({ bc with chain := bc.chain ++ [receivedBlock], utxoSet := r.1.1, tick := r.1.2 },
          false)
      else (bc, false)
    else (bc, true)

/-! ## Determinism analysis of the UTXO fold (claim C9)

The fold is not a pure function of the chain: every output records a
`Date.now()` timestamp and every change output records a
`generateTxId()` string.  To isolate exactly that dependence we run the
same machinery over the skeleton id type `TxRef`, where a generated id
is the tick at which it was drawn, and relate a concrete run to the
skeleton run by the renaming `concRef`. -/

/-- Skeleton output ids: a transaction id taken from the chain, or the
tick at which `generateTxId` was called. -/
inductive TxRef where
  | fromTx : String → TxRef
  | generated : Nat → TxRef
deriving DecidableEq, Repr

/-- The canonical skeleton environment: time is the tick itself and a
generated id is its tick. -/
def skEnv : EnvG TxRef := ⟨fun k => k, TxRef.generated⟩

/-- Realize a skeleton id under a concrete environment. -/
def concRef (e : Env) : TxRef → String
  | .fromTx s => s
  | .generated k => e.randId k

/-- Rename the ids and timestamps of one output. -/
def mapOut {ι κ : Type} (f : ι → κ) (g : Nat → Nat) (u : UTXOG ι) : UTXOG κ :=
  ⟨f u.txId, u.amount, u.outputIndex, g u.timestamp⟩

/-- Rename the ids and timestamps of a whole ledger (balances carry no
ids or timestamps). -/
def mapUTXOSet {ι κ : Type} (f : ι → κ) (g : Nat → Nat) (s : UTXOSetG ι) : UTXOSetG κ :=
  ⟨s.utxos.map (fun p => (p.1, p.2.map (mapOut f g))), s.balances⟩

/-- Every output a reachable skeleton ledger holds is either a
chain-derived output at index 0 or a generated change output at
index 1. -/
def GoodOut (u : UTXOG TxRef) : Prop :=
  (∃ s, u.txId = .fromTx s ∧ u.outputIndex = 0) ∨
  (∃ k, u.txId = .generated k ∧ u.outputIndex = 1)

/-- `GoodOut` for every output of every address. -/
def GoodSet (s : UTXOSetG TxRef) : Prop :=
  ∀ p ∈ s.utxos, ∀ u ∈ p.2, GoodOut u

/-- An output with its env-dependent fields erased: the timestamp is
dropped and the synthetic id of a change output (output index 1) is
canonicalized. -/
structure ErasedOut where
  txId : String
  amount : Int
  outputIndex : Nat
deriving DecidableEq, Repr

/-- Erase one concrete output. -/
def eraseOut (u : UTXO) : ErasedOut :=
  ⟨if u.outputIndex == 1 then "" else u.txId, u.amount, u.outputIndex⟩

/-- Erase a concrete ledger: all outputs erased, balances kept. -/
def eraseSet (s : UTXOSet) : List (String × List ErasedOut) × List (String × Int) :=
  (s.utxos.map (fun p => (p.1, p.2.map eraseOut)), s.balances)

/-- Erase one skeleton output (the generated-id case at index ≠ 1 is
unreachable for `GoodOut` outputs). -/
def eraseOutRef (u : UTXOG TxRef) : ErasedOut :=
  ⟨if u.outputIndex == 1 then ""
    else match u.txId with
      | .fromTx s => s
      | .generated _ => "",
   u.amount, u.outputIndex⟩

/-- Erase a skeleton ledger. -/
def eraseSetRef (s : UTXOSetG TxRef) : List (String × List ErasedOut) × List (String × Int) :=
  (s.utxos.map (fun p => (p.1, p.2.map eraseOutRef)), s.balances)

/-- Sum of `amount + fee` over the transactions a given address sends
(the quantity claim C2 bounds by the address's balance). -/
def senderTotal (txs : List Transaction) (a : String) : Int :=
  ((txs.filter (fun t => t.fromAddress == some a)).map (fun t => t.amount + t.fee)).sum

/-! ## Concrete instances used by witnesses and counterexamples -/

/-- A crypto oracle whose string hash is the constant (valid-hex) `"ab"`,
whose byte-level hashes are the identity and whose recovery always
returns the empty public key (so the derived address is `"cosmos"`). -/
def cZero : Crypto :=
  ⟨fun _ => "ab", id, id, fun _ _ _ => .ok [], fun _ => ""⟩

/-- An environment with a frozen clock and a constant generated id. -/
def envA : Env := ⟨fun _ => 0, fun _ => "chg"⟩

/-- C6: a transfer whose signature recovers to its sender but whose
stored `txId` is not the hash of its fields. -/
def txC6 : Transaction :=
  ⟨some "cosmos", some "x", 1, 0, 0, some ⟨"", "", 0⟩, "bogus"⟩

/-- C10: a transaction whose signature `r` is not valid hex, so the
recovery region throws. -/
def txC10 : Transaction :=
  ⟨some "cosmos", some "x", 1, 0, 0, some ⟨"zz", "", 0⟩, "id10"⟩

/-- C1: a ledger holding a single 100-unit output for `"a"`. -/
def sC1 : UTXOSet × Nat := addUTXO envA emptyUTXOSet 0 "a" "t0" 100 0

/-- C1: the ledger after `spendUTXO("a", 30)` (the spend succeeds). -/
def sC1spent : UTXOSet × Nat :=
  match spendUTXO envA sC1.1 sC1.2 "a" 30 with
  | .ok r => r
  | .error _ => sC1

/-- C2: transfer of 80 from `"a"` to `"b"`, no fee. -/
def txC2a : Transaction := ⟨some "a", some "b", 80, 0, 0, none, "t2a"⟩

/-- C2: transfer of 80 from `"a"` to `"c"`, no fee. -/
def txC2b : Transaction := ⟨some "a", some "c", 80, 0, 0, none, "t2b"⟩

/-- C2: a node whose ledger gives `"a"` balance 100 while both 80-unit
transfers from `"a"` are pending. -/
def bcC2 : Blockchain :=
  ⟨[], 2, [txC2a, txC2b], (addUTXO envA emptyUTXOSet 0 "a" "t0" 100 0).1, 1⟩

/-- C3: an empty-chain node. -/
def bcC3 : Blockchain := ⟨[], 2, [], emptyUTXOSet, 0⟩

/-- C3: a one-block candidate chain (a single block is pairwise-valid). -/
def blkC3 : Block := ⟨0, "0", 0, [], 0, "h", "m"⟩

/-- C4: the genesis block of the gossip counterexample. -/
def blkC4gen : Block := ⟨0, "0", 0, [], 0, "gh", "m"⟩

/-- C4: a coinbase transaction that is both pending and inside the
gossiped block. -/
def txC4 : Transaction := ⟨none, some "m1", 50, 0, 0, none, "tx-x"⟩

/-- C4: a block extending the genesis, valid for `cZero` at difficulty 0,
containing `txC4`. -/
def blkC4 : Block := ⟨1, "gh", 0, [txC4], 0, "ab", "mr"⟩

/-- C4: node state whose pool already holds `txC4` when `blkC4` arrives. -/
def bcC4 : Blockchain := ⟨[blkC4gen], 0, [txC4], emptyUTXOSet, 0⟩

/-- C4 witness: a pending transaction that survives the removal. -/
def txC4keep : Transaction := ⟨some "a", some "b", 1, 0, 0, none, "keep"⟩

/-- C5: block `j` of the retarget counterexample chain. -/
def blkC5 (j : Nat) (ts : Int) : Block := ⟨(j : Int), "", ts, [], 0, "", ""⟩

/-- C5: an 11-block chain (indices 0..10) whose latest timestamp is
60000, with block 0 at time 0 and block 1 at time 20000: measured from
block 0 (the claim's window) the span is 60000 (no retarget), measured
from block 1 (the code's window) it is 40000 (< 50000, retarget up). -/
def bcC5 : Blockchain :=
  ⟨[blkC5 0 0, blkC5 1 20000, blkC5 2 20000, blkC5 3 20000, blkC5 4 20000,
    blkC5 5 20000, blkC5 6 20000, blkC5 7 20000, blkC5 8 20000, blkC5 9 20000,
    blkC5 10 60000], 2, [], emptyUTXOSet, 0⟩

/-- Claim C5's retarget, written from the specification's words: the
comparison block is the one 10 positions before the latest
(`chain[chain.length - 11]`); thresholds and floor as in the source. -/
def specAdjustDifficulty (bc : Blockchain) : Blockchain :=
  match getLatestBlock bc with
  | none => bc
  | some latest =>
    if latest.index % 10 != 0 || latest.index == 0 then bc
    else
      match bc.chain.get? (bc.chain.length - 11) with
      | none => bc
      | some prevAdjustmentBlock =>
        let timeExpected : Int := 10000 * 10
        let timeActual := latest.timestamp - prevAdjustmentBlock.timestamp
        if timeActual < timeExpected / 2 then
          { bc with difficulty := bc.difficulty + 1 }
        else if timeActual > timeExpected * 2 then
          { bc with difficulty := max 1 (bc.difficulty - 1) }
        else bc

/-- C5 witness: the same chain with the latest block at index 11 (not a
multiple of 10), where no retarget fires. -/
def bcC5off : Blockchain :=
  ⟨[blkC5 0 0, blkC5 1 20000, blkC5 2 20000, blkC5 3 20000, blkC5 4 20000,
    blkC5 5 20000, blkC5 6 20000, blkC5 7 20000, blkC5 8 20000, blkC5 9 20000,
    blkC5 11 60000], 2, [], emptyUTXOSet, 0⟩

/-- C7: a ledger holding a single 5-unit output for `"a"`. -/
def sC7 : UTXOSet := (addUTXO envA emptyUTXOSet 0 "a" "t7" 5 0).1

/-- C7: a transfer from `"a"` needing 6 + 1 = 7 units. -/
def txC7 : Transaction := ⟨some "a", some "b", 6, 1, 0, none, "t7x"⟩

/-- C8: two open peers. -/
def peersC8 : List Peer := [⟨"p1", true⟩, ⟨"p2", true⟩]

/-- C8: a valid coinbase transaction arriving by gossip. -/
def txC8 : Transaction := ⟨none, some "m", 50, 0, 0, none, "t8"⟩

/-- C8: a fresh node state. -/
def bcC8 : Blockchain := ⟨[], 0, [], emptyUTXOSet, 0⟩

/-- C9: a coinbase transaction paying `"a"`. -/
def txC9 : Transaction := ⟨none, some "a", 50, 0, 0, none, "t9"⟩

/-- C9: a one-block chain carrying `txC9`. -/
def blkC9 : Block := ⟨0, "0", 0, [txC9], 0, "h9", "m"⟩

/-- C9 counterexample: clock frozen at 0. -/
def e1C9 : Env := ⟨fun _ => 0, fun _ => "x"⟩

/-- C9 counterexample: clock frozen at 1. -/
def e2C9 : Env := ⟨fun _ => 1, fun _ => "x"⟩

/-- C9 witness: an injective generated-id stream (`k` letters `a`). -/
def eW1 : Env := ⟨fun _ => 0, fun k => String.mk (List.replicate k 'a')⟩

/-- C9 witness: a second injective stream with a different clock. -/
def eW2 : Env := ⟨fun _ => 1, fun k => String.mk (List.replicate k 'b')⟩

/-! ## Claim theorems -/

/-- Claim C1 (code bug).  The cached balance does not stay equal to the
sum of the recorded outputs: starting from a ledger whose only output is
100 units for `"a"` (balance 100 = outputs 100), `spendUTXO("a", 30)`
succeeds, but afterwards the cached balance is 140 while the outputs sum
to 70 — the source subtracts only `amount` from the balance and then
`addUTXO` adds the 70-unit change back a second time. -/
theorem claimC1_balance_cache_bug :
    getBalance sC1.1 "a" = 100 ∧ utxoAmountSum sC1.1 "a" = 100 ∧
    (spendUTXO envA sC1.1 sC1.2 "a" 30).isOk = true ∧
    getBalance sC1spent.1 "a" = 140 ∧ utxoAmountSum sC1spent.1 "a" = 70 := by
  decide

/-- Claim C2 (code bug).  `selectTransactionsForBlock` checks each
pending transaction against the same ledger individually, so from a pool
holding two 80-unit transfers out of an address with balance 100 it
selects both: the selected transactions spend 160 from `"a"` against a
balance of 100, violating the no-overspend requirement. -/
theorem claimC2_overspend_selected :
    (selectTransactionsForBlock bcC2).1 = [txC2a, txC2b] ∧
    canProcessTransaction bcC2.utxoSet txC2a = true ∧
    canProcessTransaction bcC2.utxoSet txC2b = true ∧
    senderTotal (selectTransactionsForBlock bcC2).1 "a" = 160 ∧
    getBalance bcC2.utxoSet "a" = 100 := by
  decide

/-- Claim C3 (confirmed).  `replaceChain(newChain)` succeeds exactly when
the candidate is strictly longer than the local chain and pairwise valid;
on success the chain becomes the candidate and the ledger is the result
of clearing and re-applying every candidate transaction in order (and the
pool and difficulty are untouched); on failure the whole state is
returned unchanged. -/
theorem claimC3_replaceChain (c : Crypto) (e : Env) (bc : Blockchain)
    (newChain : List Block) :
    ((replaceChain c e bc newChain).1 =
      (decide (newChain.length > bc.chain.length) && isValidChain c bc.difficulty newChain)) ∧
    ((replaceChain c e bc newChain).1 = true →
      (replaceChain c e bc newChain).2.chain = newChain ∧
      (replaceChain c e bc newChain).2.utxoSet = (rebuildUTXOSet e bc.tick newChain).1.1 ∧
      (replaceChain c e bc newChain).2.pendingTransactions = bc.pendingTransactions ∧
      (replaceChain c e bc newChain).2.difficulty = bc.difficulty) ∧
    ((replaceChain c e bc newChain).1 = false → (replaceChain c e bc newChain).2 = bc) := by
  by_cases h : (decide (newChain.length > bc.chain.length) &&
      isValidChain c bc.difficulty newChain) = true
  · simp [replaceChain, h]
  · rw [Bool.not_eq_true] at h
    simp [replaceChain, h]

/-- Witness for C3: an empty-chain node adopts a one-block candidate and
rejects an empty candidate unchanged. -/
theorem claimC3_witness :
    (replaceChain cZero envA bcC3 [blkC3]).1 = true ∧
    (replaceChain cZero envA bcC3 [blkC3]).2.chain = [blkC3] ∧
    (replaceChain cZero envA bcC3 []).1 = false ∧
    (replaceChain cZero envA bcC3 []).2 = bcC3 := by
  have h1 := claimC3_replaceChain cZero envA bcC3 [blkC3]
  have h2 := claimC3_replaceChain cZero envA bcC3 []
  have hb1 : (replaceChain cZero envA bcC3 [blkC3]).1 = true := by
    rw [h1.1]; decide
  have hb2 : (replaceChain cZero envA bcC3 []).1 = false := by
    rw [h2.1]; decide
  exact ⟨hb1, (h1.2.1 hb1).1, hb2, h2.2.2 hb2⟩

/-- Claim C10 (confirmed).  When the non-coinbase validation path reaches
the signature-recovery region and any step of it throws (bad hex in `r`
or `s`, an oversized component, an out-of-range recovery id, an
unrecoverable signature), `isValid` catches the exception and returns
`false`; together with the early boolean returns this makes `isValid`
total. -/
theorem claimC10_isValid_total (c : Crypto) (t : Transaction) (fa : String)
    (sig : Signature) (msg : String) (hfa : t.fromAddress = some fa)
    (hsig : t.signature = some sig)
    (herr : sigRecoverRegion c t sig = .error msg) :
    t.isValid c = false := by
  unfold Transaction.isValid
  rw [hfa, hsig]
  by_cases h1 : fa = ""
  · simp [h1]
  · simp only [if_neg h1]
    cases hta : t.toAddress with
    | none => rfl
    | some ta =>
      by_cases h2 : ta = ""
      · simp [h2]
      · simp only [if_neg h2]
        by_cases h3 : t.amount ≤ 0
        · simp [h3]
        · simp only [if_neg h3]
          by_cases h4 : fa = ta
          · simp [h4]
          · simp only [if_neg h4]
            rw [herr]

/-- Witness for C10: a transaction whose signature `r` is `"zz"` makes
the recovery region throw on hex decoding, and `isValid` reports
`false`. -/
theorem claimC10_witness :
    sigRecoverRegion cZero txC10 ⟨"zz", "", 0⟩ = .error "invalid hex character" ∧
    Transaction.isValid cZero txC10 = false := by
  refine ⟨by decide, ?_⟩
  exact claimC10_isValid_total cZero txC10 "cosmos" ⟨"zz", "", 0⟩
    "invalid hex character" (by decide) (by decide) (by decide)

/-- Claim C6, counterexample.  A transfer whose signature recovers to the
sender address but whose stored `txId` is `"bogus"` (not the hash of its
fields) is accepted by `isValid`, while the claimed characterization —
which requires `txId` to re-derive — rejects it: `isValid` never reads
`txId`. -/
theorem claimC6_counterexample :
    Transaction.isValid cZero txC6 = true ∧ specTxValid cZero txC6 = false ∧
    txC6.txId ≠ txC6.calculateHash cZero := by
  decide

/-- Claim C6, amended.  `isValid` returns true iff the transaction is a
coinbase with positive amount, or the fields are present, the amount is
positive, sender and receiver differ, and the recovery region
successfully derives the sender address — with no condition on `txId`. -/
theorem claimC6_amended (c : Crypto) (t : Transaction) :
    t.isValid c = specTxValidAmended c t := by
  unfold Transaction.isValid specTxValidAmended
  cases hfa : t.fromAddress with
  | none => simp
  | some fa =>
    cases hsig : t.signature with
    | none => simp
    | some sig =>
      by_cases h1 : fa = ""
      · simp [h1]
      · cases hta : t.toAddress with
        | none => simp [h1]
        | some ta =>
          by_cases h2 : ta = ""
          · simp [h1, h2]
          · by_cases h3 : t.amount ≤ 0
            · simp [h1, h2, h3, not_lt.mpr h3]
            · by_cases h4 : fa = ta
              · simp [h1, h2, h3, h4, lt_of_not_le h3]
              · cases hreg : sigRecoverRegion c t sig with
                | ok b =>
                  simp [h1, h2, h3, h4, lt_of_not_le h3, hreg]
                | error msg =>
                  simp [h1, h2, h3, h4, lt_of_not_le h3, hreg]

/-- Claim C7 (confirmed).  `spendUTXO(a, m)` throws `InsufficientFunds`
exactly when the cached balance of `a` is below `m` — the throw happens
before any mutation, so a failing `processTransaction` leaves the ledger
and the tick exactly as they were (third conjunct, stated through the
in-place application `applyTxs`). -/
theorem claimC7_spend_insufficient (e : Env) (s : UTXOSet) (k : Nat) (a : String)
    (m : Int) :
    (getBalance s a < m →
      spendUTXO e s k a m = .error (.insufficientFunds m (getBalance s a))) ∧
    (¬ getBalance s a < m → (spendUTXO e s k a m).isOk = true) ∧
    (∀ (t : Transaction) (fa : String), t.fromAddress = some fa →
      getBalance s fa < t.amount + t.fee →
      processTransaction id e s k t =
        .error (.insufficientFunds (t.amount + t.fee) (getBalance s fa)) ∧
      applyTxs id e s k [t] =
        ((s, k), some (.insufficientFunds (t.amount + t.fee) (getBalance s fa)))) := by
  have hspend : ∀ m' : Int, getBalance s a < m' →
      spendUTXO e s k a m' = .error (.insufficientFunds m' (getBalance s a)) := by
    intro m' h
    unfold spendUTXO
    rw [if_pos h]
  refine ⟨hspend m, ?_, ?_⟩
  · intro h
    simp only [spendUTXO, if_neg h]
    split <;> rfl
  · intro t fa hfa h
    have hs : spendUTXO e s k fa (t.amount + t.fee) =
        .error (.insufficientFunds (t.amount + t.fee) (getBalance s fa)) := by
      unfold spendUTXO
      rw [if_pos h]
    have hp : processTransaction id e s k t =
        .error (.insufficientFunds (t.amount + t.fee) (getBalance s fa)) := by
      simp [processTransaction, hfa, hs]
    refine ⟨hp, ?_⟩
    simp [applyTxs, hp]

/-- Witness for C7: with a single 5-unit output, `spendUTXO("a", 10)`
fails with the insufficiency error, and a transfer needing 7 units
leaves the ledger and tick untouched. -/
theorem claimC7_witness :
    spendUTXO envA sC7 0 "a" 10 = .error (.insufficientFunds 10 5) ∧
    applyTxs id envA sC7 0 [txC7] =
      ((sC7, 0), some (.insufficientFunds (txC7.amount + txC7.fee) (getBalance sC7 "a"))) := by
  have h := claimC7_spend_insufficient envA sC7 0 "a" 10
  have h5 : getBalance sC7 "a" = 5 := by decide
  refine ⟨?_, ?_⟩
  · have e1 := h.1 (by decide)
    rw [h5] at e1
    exact e1
  · exact (h.2.2 txC7 "a" (by decide) (by decide)).2

/-- Claim C8, counterexample.  An accepted gossip transaction is
re-broadcast to the full peer table — `["p1", "p2"]`, every open peer —
because the exclusion key passed to `broadcastMessage` is the
transaction's `txId`, not a peer id; whichever of the two peers sent the
message receives its own echo, contradicting the claimed
exclude-the-sender behavior. -/
theorem claimC8_counterexample :
    (handleNewTransaction cZero bcC8 peersC8 txC8).2 = ["p1", "p2"] ∧
    peersC8.map (fun p => p.id) = ["p1", "p2"] := by
  decide

/-- Claim C8, amended.  On an accepted NEW_TRANSACTION (resp. NEW_BLOCK)
the node re-broadcasts to exactly the open peers whose id differs from
the transaction's `txId` (resp. the block's hash) when that string is
nonempty — the sender is never consulted, so any peer, the sender
included, receives the echo as long as its id differs from that
string. -/
theorem claimC8_amended (c : Crypto) (e : Env) (bc : Blockchain) (peers : List Peer)
    (t : Transaction) (b : Block) :
    ((handleNewTransaction c bc peers t).2 = [] ∨
      (handleNewTransaction c bc peers t).2 =
        (peers.filter (fun p => !(jsTruthy t.txId && p.id == t.txId) && p.openConn)).map
          (fun p => p.id)) ∧
    ((handleNewBlock c e bc peers b).2 = [] ∨
      (handleNewBlock c e bc peers b).2 =
        (peers.filter (fun p => !(jsTruthy b.hash && p.id == b.hash) && p.openConn)).map
          (fun p => p.id)) ∧
    (∀ p ∈ peers, p.openConn = true → p.id ≠ t.txId →
      (handleNewTransaction c bc peers t).2 ≠ [] →
      p.id ∈ (handleNewTransaction c bc peers t).2) := by
  have hbr : ∀ x : String, broadcastRecipients peers (some x) =
      (peers.filter (fun p => !(jsTruthy x && p.id == x) && p.openConn)).map
        (fun p => p.id) := by
    intro x
    rfl
  have htx : (handleNewTransaction c bc peers t).2 = [] ∨
      (handleNewTransaction c bc peers t).2 = broadcastRecipients peers (some t.txId) := by
    unfold handleNewTransaction
    split
    · cases haddr : addTransaction c bc t with
      | ok bc1 => right; rfl
      | error msg => left; rfl
    · left; rfl
  have hblk : (handleNewBlock c e bc peers b).2 = [] ∨
      (handleNewBlock c e bc peers b).2 = broadcastRecipients peers (some b.hash) := by
    unfold handleNewBlock
    cases hlat : getLatestBlock bc with
    | none => exact Or.inl rfl
    | some latest =>
      dsimp only
      by_cases hv : isValidNewBlock c bc.difficulty b latest = true
      · rw [if_pos hv]
        dsimp only
        cases herr : (applyTxs id e bc.utxoSet bc.tick b.transactions).2 with
        | none => exact Or.inr rfl
        | some msg => exact Or.inl rfl
      · rw [if_neg hv]
        exact Or.inl rfl
  refine ⟨?_, ?_, ?_⟩
  · rcases htx with h | h
    · exact Or.inl h
    · exact Or.inr (h.trans (hbr t.txId))
  · rcases hblk with h | h
    · exact Or.inl h
    · exact Or.inr (h.trans (hbr b.hash))
  · intro p hp hopen hne hnonempty
    rcases htx with h | h
    · exact absurd h hnonempty
    · rw [h, hbr t.txId]
      refine List.mem_map.mpr ⟨p, List.mem_filter.mpr ⟨hp, ?_⟩, rfl⟩
      have : (p.id == t.txId) = false := by
        simp [hne]
      simp [this, hopen]

/-- Witness for C8: with two open peers and an accepted coinbase
transaction, the broadcast is nonempty and includes peer `"p1"` — even
though `"p1"` may be the very peer the transaction came from. -/
theorem claimC8_witness :
    (handleNewTransaction cZero bcC8 peersC8 txC8).2 ≠ [] ∧
    "p1" ∈ (handleNewTransaction cZero bcC8 peersC8 txC8).2 := by
  refine ⟨by decide, ?_⟩
  exact (claimC8_amended cZero envA bcC8 peersC8 txC8 blkC3).2.2 ⟨"p1", true⟩
    (by decide) (by decide) (by decide) (by decide)

/-- Claim C4, counterexample.  A gossip NEW_BLOCK append does not clean
the pool: node `bcC4` holds the coinbase `txC4` as pending, the valid
block `blkC4` containing that very transaction is appended by
`handleNewBlock`, yet `txC4` is still pending afterwards, so the pool and
the appended block share the id `"tx-x"`. -/
theorem claimC4_counterexample :
    (handleNewBlock cZero envA bcC4 [] blkC4).1.chain = [blkC4gen, blkC4] ∧
    txC4 ∈ (handleNewBlock cZero envA bcC4 [] blkC4).1.pendingTransactions ∧
    txC4.txId ∈ blkC4.transactions.map (fun t => t.txId) := by
  decide

/-- Claim C4, amended.  Only the miner's own append cleans the pool:
`removePendingTransactions` leaves no survivor sharing a (nonempty)
`txId` with the mined block's transaction list, while the two gossip
append handlers never modify the pool at all. -/
theorem claimC4_amended :
    (∀ (pending processed : List Transaction) (t : Transaction),
      t ∈ removePendingTransactions pending processed →
      ∀ t2 ∈ processed, t2.txId ≠ "" → t.txId ≠ t2.txId) ∧
    (∀ (c : Crypto) (e : Env) (bc : Blockchain) (peers : List Peer) (b : Block),
      (handleNewBlock c e bc peers b).1.pendingTransactions = bc.pendingTransactions) ∧
    (∀ (c : Crypto) (e : Env) (bc : Blockchain) (b : Block),
      (handleReceiveLatestBlock c e bc b).1.pendingTransactions =
        bc.pendingTransactions) := by
  refine ⟨?_, ?_, ?_⟩
  · intro pending processed t ht t2 ht2 hne heq
    unfold removePendingTransactions at ht
    rw [List.mem_filter] at ht
    obtain ⟨-, hcon⟩ := ht
    rw [Bool.not_eq_true'] at hcon
    apply absurd hcon
    rw [Bool.not_eq_false]
    have hmem : t2.txId ∈
        ((processed.filter (fun t3 => t3.txId != "")).map (fun t3 => t3.txId)) :=
      List.mem_map_of_mem _ (List.mem_filter.mpr ⟨ht2, by simp [hne]⟩)
    rw [heq]
    exact List.elem_eq_true_of_mem hmem
  · intro c e bc peers b
    unfold handleNewBlock
    cases hlat : getLatestBlock bc with
    | none => rfl
    | some latest =>
      dsimp only
      by_cases hv : isValidNewBlock c bc.difficulty b latest = true
      · rw [if_pos hv]
      · rw [if_neg hv]
  · intro c e bc b
    unfold handleReceiveLatestBlock
    cases hlat : getLatestBlock bc with
    | none => rfl
    | some latest =>
      dsimp only
      by_cases hlink : ((b.index == latest.index + 1) &&
          (b.previousHash == latest.hash)) = true
      · rw [if_pos hlink]
        by_cases hv : isValidNewBlock c bc.difficulty b latest = true
        · rw [if_pos hv]
        · rw [if_neg hv]
      · rw [if_neg hlink]

/-- Witness for C4: a pending transaction with a different id survives
`removePendingTransactions` and indeed differs from the processed id, and
the gossip handler of the counterexample leaves the pool untouched. -/
theorem claimC4_witness :
    txC4keep ∈ removePendingTransactions [txC4keep, txC4] [txC4] ∧
    txC4keep.txId ≠ txC4.txId ∧
    (handleNewBlock cZero envA bcC4 [] blkC4).1.pendingTransactions =
      bcC4.pendingTransactions := by
  refine ⟨by decide, ?_, ?_⟩
  · exact claimC4_amended.1 [txC4keep, txC4] [txC4] txC4keep (by decide) txC4
      (by decide) (by decide)
  · exact claimC4_amended.2.1 cZero envA bcC4 [] blkC4

/-- Claim C5, counterexample.  On the 11-block chain `bcC5` the code
retargets using `chain[chain.length - 10]` — the block 9 positions before
the latest (index 1, timestamp 20000) — measuring 40000 ms and raising
the difficulty from 2 to 3, while the claim's window (the block 10
positions earlier, index 0, timestamp 0) measures 60000 ms and predicts
no change. -/
theorem claimC5_counterexample :
    bcC5.difficulty = 2 ∧
    (adjustDifficulty bcC5).difficulty = 3 ∧
    (specAdjustDifficulty bcC5).difficulty = 2 := by
  decide

/-- Claim C5, amended.  Retargeting fires exactly after appending a block
whose index is a nonzero multiple of 10, but the comparison block is
`chain[chain.length - 10]` — on a contiguous chain the block 9 positions
before the latest; with `actual` measured over that window, difficulty
goes up by 1 below 50000 ms, down by 1 (floor 1) above 200000 ms, and is
otherwise unchanged, and at any other index nothing changes. -/
theorem claimC5_amended (bc : Blockchain) (latest : Block)
    (h : getLatestBlock bc = some latest) :
    ((¬ latest.index % 10 = 0 ∨ latest.index = 0) → adjustDifficulty bc = bc) ∧
    (∀ prev : Block, latest.index % 10 = 0 → ¬ latest.index = 0 →
      bc.chain.get? (bc.chain.length - 10) = some prev →
      ((latest.timestamp - prev.timestamp < 50000 →
        adjustDifficulty bc = { bc with difficulty := bc.difficulty + 1 }) ∧
       (latest.timestamp - prev.timestamp > 200000 →
        adjustDifficulty bc = { bc with difficulty := max 1 (bc.difficulty - 1) }) ∧
       (¬ latest.timestamp - prev.timestamp < 50000 →
        ¬ latest.timestamp - prev.timestamp > 200000 →
        adjustDifficulty bc = bc))) := by
  constructor
  · intro hoff
    unfold adjustDifficulty
    rw [h]
    dsimp only
    have hcond : (latest.index % 10 != 0 || latest.index == 0) = true := by
      rcases hoff with h1 | h1 <;> simp [h1]
    rw [if_pos hcond]
  · intro prev h10 hne hprev
    unfold adjustDifficulty
    rw [h]
    dsimp only
    have hcond : (latest.index % 10 != 0 || latest.index == 0) = false := by
      simp [h10, hne]
    rw [if_neg (by simp [hcond]), hprev]
    dsimp only
    have he2 : (10000 * 10 : Int) / 2 = 50000 := by norm_num
    have he3 : (10000 * 10 : Int) * 2 = 200000 := by norm_num
    refine ⟨?_, ?_, ?_⟩
    · intro hlt
      rw [if_pos (by rw [he2]; exact hlt)]
    · intro hgt
      rw [if_neg (by rw [he2]; exact not_lt.mpr (by linarith)),
        if_pos (by rw [he3]; exact hgt)]
    · intro hnlt hngt
      rw [if_neg (by rw [he2]; exact hnlt), if_neg (by rw [he3]; exact hngt)]

/-- Witness for C5: on `bcC5` the fast window raises the difficulty to 3,
and on `bcC5off` (latest index 11) nothing fires. -/
theorem claimC5_witness :
    adjustDifficulty bcC5 = { bcC5 with difficulty := bcC5.difficulty + 1 } ∧
    adjustDifficulty bcC5off = bcC5off := by
  constructor
  · exact ((claimC5_amended bcC5 (blkC5 10 60000) (by decide)).2 (blkC5 1 20000)
      (by decide) (by decide) (by decide)).1 (by decide)
  · exact (claimC5_amended bcC5off (blkC5 11 60000) (by decide)).1
      (Or.inl (by decide))

/-! ## Simulation lemmas for claim C9

A concrete run of the ledger under environment `e` is the image of the
skeleton run under the renaming `mapOut (concRef e) e.now`, provided the
generated-id stream of `e` is injective.  The lemmas below push that
renaming through every ledger operation. -/

theorem find?_map_keys {α β : Type} (h : α → β) (l : List (String × α)) (k : String) :
    (l.map (fun p => (p.1, h p.2))).find? (fun p => p.1 == k) =
      (l.find? (fun p => p.1 == k)).map (fun p => (p.1, h p.2)) := by
  induction l with
  | nil => rfl
  | cons p rest ih =>
    by_cases hp : (p.1 == k) = true
    · simp [List.find?, hp]
    · simp only [List.map_cons, List.find?, hp]
      exact ih

theorem mapGet_mapVal {α β : Type} (h : α → β) (l : List (String × α)) (k : String) :
    mapGet (l.map (fun p => (p.1, h p.2))) k = (mapGet l k).map h := by
  unfold mapGet
  rw [find?_map_keys]
  cases l.find? (fun p => p.1 == k) <;> rfl

theorem mapSet_mapVal {α β : Type} (h : α → β) (l : List (String × α)) (k : String)
    (v : α) :
    mapSet (l.map (fun p => (p.1, h p.2))) k (h v) =
      (mapSet l k v).map (fun p => (p.1, h p.2)) := by
  unfold mapSet
  rw [find?_map_keys]
  by_cases hs : (l.find? (fun p => p.1 == k)).isSome
  · rw [if_pos (by simp [hs]), if_pos hs, List.map_map, List.map_map]
    apply List.map_congr_left
    intro p _
    by_cases hp : (p.1 == k) = true
    · simp [Function.comp, hp]
    · simp [Function.comp, hp]
  · rw [if_neg (by simp [Option.isSome_map', hs]), if_neg hs]
    simp

theorem mem_of_mem_mapSet {α : Type} {l : List (String × α)} {k : String} {v : α}
    {q : String × α} (hq : q ∈ mapSet l k v) : q = (k, v) ∨ q ∈ l := by
  unfold mapSet at hq
  by_cases hs : (l.find? (fun p => p.1 == k)).isSome
  · rw [if_pos hs] at hq
    obtain ⟨p, hp, hpe⟩ := List.mem_map.mp hq
    by_cases hpk : (p.1 == k) = true
    · left; rw [← hpe]; simp [hpk]
    · right; rw [← hpe]; simpa [hpk] using hp
  · rw [if_neg hs] at hq
    rcases List.mem_append.mp hq with h | h
    · exact Or.inr h
    · left; simpa using h

theorem insertDesc_map {ι κ : Type} (f : ι → κ) (g : Nat → Nat) (u : UTXOG ι)
    (l : List (UTXOG ι)) :
    insertDesc (mapOut f g u) (l.map (mapOut f g)) = (insertDesc u l).map (mapOut f g) := by
  induction l with
  | nil => rfl
  | cons v vs ih =>
    simp only [List.map_cons]
    unfold insertDesc
    dsimp only [mapOut]
    by_cases hle : v.amount ≤ u.amount
    · rw [if_pos hle, if_pos hle]
      simp [mapOut]
    · rw [if_neg hle, if_neg hle]
      simp only [List.map_cons]
      exact congrArg (List.cons (mapOut f g v)) ih

theorem mem_insertDesc {ι : Type} {u x : UTXOG ι} {l : List (UTXOG ι)}
    (hx : x ∈ insertDesc u l) : x = u ∨ x ∈ l := by
  induction l with
  | nil => simpa [insertDesc] using hx
  | cons v vs ih =>
    unfold insertDesc at hx
    by_cases hle : v.amount ≤ u.amount
    · rw [if_pos hle] at hx
      rcases List.mem_cons.mp hx with h | h
      · exact Or.inl h
      · exact Or.inr h
    · rw [if_neg hle] at hx
      rcases List.mem_cons.mp hx with h | h
      · exact Or.inr (by rw [h]; exact List.mem_cons_self v vs)
      · rcases ih h with h2 | h2
        · exact Or.inl h2
        · exact Or.inr (List.mem_cons_of_mem v h2)

theorem sortByAmountDesc_map {ι κ : Type} (f : ι → κ) (g : Nat → Nat)
    (l : List (UTXOG ι)) :
    sortByAmountDesc (l.map (mapOut f g)) = (sortByAmountDesc l).map (mapOut f g) := by
  induction l with
  | nil => rfl
  | cons x xs ih =>
    simp only [List.map_cons, sortByAmountDesc, List.foldr_cons]
    rw [show List.foldr insertDesc [] (xs.map (mapOut f g)) =
        sortByAmountDesc (xs.map (mapOut f g)) from rfl, ih]
    exact insertDesc_map f g x (sortByAmountDesc xs)

theorem mem_sortByAmountDesc {ι : Type} {x : UTXOG ι} {l : List (UTXOG ι)}
    (hx : x ∈ sortByAmountDesc l) : x ∈ l := by
  induction l with
  | nil => simpa [sortByAmountDesc] using hx
  | cons v vs ih =>
    rcases mem_insertDesc hx with h | h
    · rw [h]; exact List.mem_cons_self v vs
    · exact List.mem_cons_of_mem v (ih h)

theorem selectLoop_map {ι κ : Type} (f : ι → κ) (g : Nat → Nat) (l : List (UTXOG ι))
    (amount : Int) :
    ∀ tot, selectLoop (l.map (mapOut f g)) amount tot =
      ((selectLoop l amount tot).1.map (mapOut f g), (selectLoop l amount tot).2) := by
  induction l with
  | nil => intro tot; rfl
  | cons u rest ih =>
    intro tot
    by_cases h : amount ≤ tot
    · simp [selectLoop, h]
    · simp [selectLoop, h, mapOut, ih (tot + u.amount)]

theorem mem_selectLoop {ι : Type} {l : List (UTXOG ι)} {amount : Int} {u : UTXOG ι} :
    ∀ {tot}, u ∈ (selectLoop l amount tot).1 → u ∈ l := by
  induction l with
  | nil => intro tot h; simpa [selectLoop] using h
  | cons v vs ih =>
    intro tot h
    unfold selectLoop at h
    by_cases hle : amount ≤ tot
    · rw [if_pos hle] at h
      simp at h
    · rw [if_neg hle] at h
      rcases List.mem_cons.mp h with h2 | h2
      · rw [h2]; exact List.mem_cons_self v vs
      · exact List.mem_cons_of_mem v (ih h2)

theorem mem_removeFirstMatch {ι : Type} [DecidableEq ι] {l : List (UTXOG ι)}
    {u x : UTXOG ι} (hx : x ∈ removeFirstMatch l u) : x ∈ l := by
  induction l with
  | nil => simpa [removeFirstMatch] using hx
  | cons y ys ih =>
    unfold removeFirstMatch at hx
    by_cases h : y.txId = u.txId ∧ y.outputIndex = u.outputIndex
    · rw [if_pos h] at hx
      exact List.mem_cons_of_mem y hx
    · rw [if_neg h] at hx
      rcases List.mem_cons.mp hx with h2 | h2
      · rw [h2]; exact List.mem_cons_self y ys
      · exact List.mem_cons_of_mem y (ih h2)

theorem removeFirstMatch_map (e : Env) (g : Nat → Nat) (l : List (UTXOG TxRef))
    (u : UTXOG TxRef)
    (hk : ∀ x ∈ l, ((concRef e x.txId = concRef e u.txId ∧
        x.outputIndex = u.outputIndex) ↔
      (x.txId = u.txId ∧ x.outputIndex = u.outputIndex))) :
    removeFirstMatch (l.map (mapOut (concRef e) g)) (mapOut (concRef e) g u) =
      (removeFirstMatch l u).map (mapOut (concRef e) g) := by
  induction l with
  | nil => rfl
  | cons x xs ih =>
    have hx := hk x (List.mem_cons_self x xs)
    simp only [List.map_cons]
    unfold removeFirstMatch
    dsimp only [mapOut]
    by_cases h : x.txId = u.txId ∧ x.outputIndex = u.outputIndex
    · rw [if_pos (hx.mpr h), if_pos h]
    · rw [if_neg (fun hc => h (hx.mp hc)), if_neg h]
      simp only [List.map_cons]
      exact congrArg (List.cons (mapOut (concRef e) g x))
        (ih (fun y hy => hk y (List.mem_cons_of_mem x hy)))

theorem foldl_removeFirstMatch_map (e : Env) (g : Nat → Nat) :
    ∀ (sp l : List (UTXOG TxRef)),
    (∀ x ∈ l, ∀ u ∈ sp, ((concRef e x.txId = concRef e u.txId ∧
        x.outputIndex = u.outputIndex) ↔
      (x.txId = u.txId ∧ x.outputIndex = u.outputIndex))) →
    (sp.map (mapOut (concRef e) g)).foldl removeFirstMatch (l.map (mapOut (concRef e) g)) =
      (sp.foldl removeFirstMatch l).map (mapOut (concRef e) g) := by
  intro sp
  induction sp with
  | nil => intro l _; rfl
  | cons u us ih =>
    intro l hk
    simp only [List.map_cons, List.foldl_cons]
    rw [removeFirstMatch_map e g l u (fun x hx => hk x hx u (List.mem_cons_self u us))]
    exact ih (removeFirstMatch l u)
      (fun x hx v hv => hk x (mem_removeFirstMatch hx) v (List.mem_cons_of_mem u hv))

theorem goodOut_keyIff {e : Env} (he : Function.Injective e.randId)
    {x u : UTXOG TxRef} (hx : GoodOut x) (hu : GoodOut u) :
    ((concRef e x.txId = concRef e u.txId ∧ x.outputIndex = u.outputIndex) ↔
      (x.txId = u.txId ∧ x.outputIndex = u.outputIndex)) := by
  rcases hx with ⟨s1, hx1, hx0⟩ | ⟨k1, hx1, hx0⟩ <;>
    rcases hu with ⟨s2, hu1, hu0⟩ | ⟨k2, hu1, hu0⟩
  · rw [hx1, hu1]
    simp [concRef]
  · rw [hx1, hu1, hx0, hu0]
    simp [concRef]
  · rw [hx1, hu1, hx0, hu0]
    simp [concRef]
  · rw [hx1, hu1]
    simp [concRef, he.eq_iff]

theorem goodSet_mem {L : List (String × List (UTXOG TxRef))}
    (hs : ∀ p ∈ L, ∀ u ∈ p.2, GoodOut u) {a : String}
    {l : List (UTXOG TxRef)} (hl : mapGet L a = some l) :
    ∀ u ∈ l, GoodOut u := by
  intro u hu
  unfold mapGet at hl
  cases hfind : L.find? (fun p => p.1 == a) with
  | none => rw [hfind] at hl; cases hl
  | some p =>
    rw [hfind] at hl
    have hpl : p.2 = l := by simpa using hl
    exact hs p (List.mem_of_find?_eq_some hfind) u (hpl ▸ hu)

theorem goodPairs_mapSet {L : List (String × List (UTXOG TxRef))}
    (hs : ∀ p ∈ L, ∀ u ∈ p.2, GoodOut u) {a : String} {v : List (UTXOG TxRef)}
    (hv : ∀ u ∈ v, GoodOut u) :
    ∀ p ∈ mapSet L a v, ∀ u ∈ p.2, GoodOut u := by
  intro p hp u hu
  rcases mem_of_mem_mapSet hp with hpe | hp2
  · rw [hpe] at hu
    exact hv u hu
  · exact hs p hp2 u hu

theorem goodPairs_getD {L : List (String × List (UTXOG TxRef))}
    (hs : ∀ p ∈ L, ∀ u ∈ p.2, GoodOut u) (a : String) :
    ∀ u ∈ (mapGet L a).getD [], GoodOut u := by
  cases hget : mapGet L a with
  | none => intro u hu; simp at hu
  | some l => intro u hu; exact goodSet_mem hs hget u (by simpa using hu)

theorem mem_foldl_removeFirstMatch {ι : Type} [DecidableEq ι] :
    ∀ (sp l : List (UTXOG ι)) (x : UTXOG ι),
    x ∈ sp.foldl removeFirstMatch l → x ∈ l := by
  intro sp
  induction sp with
  | nil => intro l x hx; exact hx
  | cons u us ih =>
    intro l x hx
    exact mem_removeFirstMatch (ih (removeFirstMatch l u) x hx)

theorem mapGet_append_absent {α : Type} (l : List (String × α)) (k : String) (v : α)
    (h : (l.find? (fun p => p.1 == k)).isSome = false) :
    mapGet (l ++ [(k, v)]) k = some v := by
  induction l with
  | nil =>
    unfold mapGet
    simp [List.find?]
  | cons p rest ih =>
    have hp : (p.1 == k) = false := by
      by_contra hc
      rw [Bool.not_eq_false] at hc
      unfold List.find? at h
      rw [hc] at h
      simp at h
    have hrest : (rest.find? (fun q => q.1 == k)).isSome = false := by
      unfold List.find? at h
      rw [hp] at h
      exact h
    rw [List.cons_append]
    show mapGet (p :: (rest ++ [(k, v)])) k = some v
    unfold mapGet
    simp only [List.find?, hp]
    exact ih hrest

theorem mapGet_mapSet_absent {α : Type} (l : List (String × α)) (k : String) (v : α)
    (h : (l.find? (fun p => p.1 == k)).isSome = false) :
    mapGet (mapSet l k v) k = some v := by
  have hset : mapSet l k v = l ++ [(k, v)] := by
    unfold mapSet
    rw [if_neg (by rw [h]; exact Bool.false_ne_true)]
  rw [hset]
  exact mapGet_append_absent l k v h

theorem addUTXO_sim (e : Env) (s : UTXOSetG TxRef) (k : Nat) (a : String)
    (txId : TxRef) (amount : Int) (oi : Nat) :
    addUTXO e (mapUTXOSet (concRef e) e.now s) k a (concRef e txId) amount oi =
      (mapUTXOSet (concRef e) e.now (addUTXO skEnv s k a txId amount oi).1,
        (addUTXO skEnv s k a txId amount oi).2) := by
  unfold addUTXO
  dsimp only
  rw [Prod.ext_iff]
  refine ⟨?_, rfl⟩
  show UTXOSetG.mk _ _ = _
  unfold mapUTXOSet
  dsimp only
  rw [UTXOSetG.mk.injEq]
  constructor
  · rw [mapGet_mapVal, Option.isSome_map']
    by_cases hsome : (mapGet s.utxos a).isSome
    · rw [if_pos hsome, if_pos hsome]
      obtain ⟨l, hl⟩ := Option.isSome_iff_exists.mp hsome
      rw [mapGet_mapVal, hl]
      dsimp only [Option.map_some', Option.getD_some]
      rw [show ((l.map (mapOut (concRef e) e.now)) ++
            [(⟨concRef e txId, amount, oi, e.now k⟩ : UTXO)]) =
          (l ++ [(⟨txId, amount, oi, skEnv.now k⟩ : UTXOG TxRef)]).map
            (mapOut (concRef e) e.now) by
        rw [List.map_append]; rfl]
      exact mapSet_mapVal _ s.utxos a _
    · rw [if_neg hsome, if_neg hsome]
      have hempty : mapSet (s.utxos.map
          (fun p => (p.1, p.2.map (mapOut (concRef e) e.now)))) a
            (([] : List (UTXOG TxRef)).map (mapOut (concRef e) e.now)) =
          (mapSet s.utxos a []).map
            (fun p => (p.1, p.2.map (mapOut (concRef e) e.now))) :=
        mapSet_mapVal _ s.utxos a []
      have hfindfalse : (s.utxos.find? (fun p => p.1 == a)).isSome = false := by
        unfold mapGet at hsome
        rw [Option.isSome_map'] at hsome
        exact Bool.not_eq_true _ ▸ (by simpa using hsome)
      have hl2 : mapGet (mapSet s.utxos a []) a = some [] :=
        mapGet_mapSet_absent s.utxos a [] hfindfalse
      rw [show (([] : List (UTXOG TxRef)).map (mapOut (concRef e) e.now)) = [] from rfl]
        at hempty
      rw [hempty, mapGet_mapVal, hl2]
      dsimp only [Option.map_some', Option.getD_some]
      rw [show ((([] : List (UTXOG TxRef)).map (mapOut (concRef e) e.now)) ++
            [(⟨concRef e txId, amount, oi, e.now k⟩ : UTXO)]) =
          (([] : List (UTXOG TxRef)) ++
            [(⟨txId, amount, oi, skEnv.now k⟩ : UTXOG TxRef)]).map
            (mapOut (concRef e) e.now) from rfl]
      exact mapSet_mapVal _ (mapSet s.utxos a []) a _
  · rfl

theorem spendUTXO_sim (e : Env) (he : Function.Injective e.randId)
    (s : UTXOSetG TxRef) (hs : GoodSet s) (k : Nat) (a : String) (amount : Int) :
    spendUTXO e (mapUTXOSet (concRef e) e.now s) k a amount =
      (match spendUTXO skEnv s k a amount with
      | .ok (s1, k1) => .ok (mapUTXOSet (concRef e) e.now s1, k1)
      | .error err => .error err) := by
  have hbal : getBalance (mapUTXOSet (concRef e) e.now s) a = getBalance s a := rfl
  have haddr : (mapGet (mapUTXOSet (concRef e) e.now s).utxos a).getD [] =
      ((mapGet s.utxos a).getD []).map (mapOut (concRef e) e.now) := by
    show (mapGet (s.utxos.map
        (fun p => (p.1, p.2.map (mapOut (concRef e) e.now)))) a).getD [] = _
    rw [mapGet_mapVal]
    cases mapGet s.utxos a <;> rfl
  have haddrGood : ∀ x ∈ (mapGet s.utxos a).getD [], GoodOut x := by
    cases hget : mapGet s.utxos a with
    | none => intro x hx; simp at hx
    | some l =>
      intro x hx
      exact goodSet_mem hs hget x (by simpa using hx)
  have hselGood : ∀ u ∈ (selectLoop (sortByAmountDesc ((mapGet s.utxos a).getD []))
      amount 0).1, GoodOut u := by
    intro u hu
    exact haddrGood u (mem_sortByAmountDesc (mem_selectLoop hu))
  unfold spendUTXO
  rw [hbal, haddr]
  by_cases hlt : getBalance s a < amount
  · rw [if_pos hlt, if_pos hlt]
  · rw [if_neg hlt, if_neg hlt]
    dsimp only
    rw [sortByAmountDesc_map, selectLoop_map,
      foldl_removeFirstMatch_map e e.now _ _
        (fun x hx u hu => goodOut_keyIff he (haddrGood x hx) (hselGood u hu))]
    dsimp only
    rw [show (mapUTXOSet (concRef e) e.now s).utxos = s.utxos.map
        (fun p => (p.1, p.2.map (mapOut (concRef e) e.now))) from rfl]
    rw [show (mapUTXOSet (concRef e) e.now s).balances = s.balances from rfl]
    rw [mapGet_mapVal, Option.isSome_map']
    by_cases hsome : (mapGet s.utxos a).isSome
    · rw [if_pos hsome, if_pos hsome,
        mapSet_mapVal (List.map (mapOut (concRef e) e.now)) s.utxos a _]
      by_cases hch : 0 < (selectLoop (sortByAmountDesc ((mapGet s.utxos a).getD []))
          amount 0).2 - amount
      · rw [if_pos hch, if_pos hch]
        exact congrArg Except.ok (addUTXO_sim e
          ⟨mapSet s.utxos a _, mapSet s.balances a (getBalance s a - amount)⟩
          (k + 1) a (TxRef.generated k) _ 1)
      · rw [if_neg hch, if_neg hch]
        rfl
    · rw [if_neg hsome, if_neg hsome]
      by_cases hch : 0 < (selectLoop (sortByAmountDesc ((mapGet s.utxos a).getD []))
          amount 0).2 - amount
      · rw [if_pos hch, if_pos hch]
        exact congrArg Except.ok (addUTXO_sim e
          ⟨s.utxos, mapSet s.balances a (getBalance s a - amount)⟩
          (k + 1) a (TxRef.generated k) _ 1)
      · rw [if_neg hch, if_neg hch]
        rfl

theorem goodSet_addUTXO {s : UTXOSetG TxRef} (hs : GoodSet s) (k : Nat) (a : String)
    (txId : TxRef) (amount : Int) (oi : Nat)
    (hu : GoodOut ⟨txId, amount, oi, skEnv.now k⟩) :
    GoodSet (addUTXO skEnv s k a txId amount oi).1 := by
  have h0 : ∀ q ∈ (if (mapGet s.utxos a).isSome then s.utxos else mapSet s.utxos a []),
      ∀ x ∈ q.2, GoodOut x := by
    split
    · exact hs
    · exact goodPairs_mapSet hs (by intro u hu2; simp at hu2)
  have happ : ∀ x ∈ ((mapGet (if (mapGet s.utxos a).isSome then s.utxos
      else mapSet s.utxos a []) a).getD [] ++ [⟨txId, amount, oi, skEnv.now k⟩]),
      GoodOut x := by
    intro x hx
    rcases List.mem_append.mp hx with h | h
    · exact goodPairs_getD h0 a x h
    · rw [show x = ⟨txId, amount, oi, skEnv.now k⟩ by simpa using h]
      exact hu
  exact fun p hp => goodPairs_mapSet h0 happ p hp

theorem goodSet_spendUTXO {s : UTXOSetG TxRef} (hs : GoodSet s) {k : Nat} {a : String}
    {amount : Int} {s1 : UTXOSetG TxRef} {k1 : Nat}
    (h : spendUTXO skEnv s k a amount = .ok (s1, k1)) : GoodSet s1 := by
  unfold spendUTXO at h
  by_cases hlt : getBalance s a < amount
  · rw [if_pos hlt] at h
    cases h
  · rw [if_neg hlt] at h
    dsimp only at h
    have hrem : ∀ x ∈ ((selectLoop (sortByAmountDesc ((mapGet s.utxos a).getD []))
        amount 0).1.foldl removeFirstMatch ((mapGet s.utxos a).getD [])), GoodOut x :=
      fun x hx => goodPairs_getD hs a x (mem_foldl_removeFirstMatch _ _ x hx)
    have hmid : GoodSet (⟨if (mapGet s.utxos a).isSome then mapSet s.utxos a
        ((selectLoop (sortByAmountDesc ((mapGet s.utxos a).getD []))
          amount 0).1.foldl removeFirstMatch ((mapGet s.utxos a).getD []))
        else s.utxos,
        mapSet s.balances a (getBalance s a - amount)⟩ : UTXOSetG TxRef) := by
      intro p hp
      revert hp
      show p ∈ (if (mapGet s.utxos a).isSome then _ else _) → _
      split
      · exact fun hp => goodPairs_mapSet hs hrem p hp
      · exact fun hp => hs p hp
    by_cases hch : 0 < (selectLoop (sortByAmountDesc ((mapGet s.utxos a).getD []))
        amount 0).2 - amount
    · rw [if_pos hch] at h
      have h2 : _ = s1 := congrArg Prod.fst (Except.ok.inj h)
      rw [← h2]
      exact goodSet_addUTXO hmid (k + 1) a (TxRef.generated k) _ 1
        (Or.inr ⟨k, rfl, rfl⟩)
    · rw [if_neg hch] at h
      have h2 : _ = s1 := congrArg Prod.fst (Except.ok.inj h)
      rw [← h2]
      exact hmid

theorem goodSet_processTransaction {s : UTXOSetG TxRef} (hs : GoodSet s) {k : Nat}
    {t : Transaction} {s1 : UTXOSetG TxRef} {k1 : Nat}
    (h : processTransaction TxRef.fromTx skEnv s k t = .ok (s1, k1)) : GoodSet s1 := by
  unfold processTransaction at h
  cases hfa : t.fromAddress with
  | none =>
    rw [hfa] at h
    dsimp only at h
    have h2 : _ = s1 := congrArg Prod.fst (Except.ok.inj h)
    rw [← h2]
    exact goodSet_addUTXO hs k (jsKey t.toAddress) (.fromTx t.txId) t.amount 0
      (Or.inl ⟨t.txId, rfl, rfl⟩)
  | some fa =>
    rw [hfa] at h
    dsimp only at h
    cases hsp : spendUTXO skEnv s k fa (t.amount + t.fee) with
    | error err => rw [hsp] at h; cases h
    | ok r =>
      obtain ⟨s2, k2⟩ := r
      rw [hsp] at h
      dsimp only at h
      have h2 : _ = s1 := congrArg Prod.fst (Except.ok.inj h)
      rw [← h2]
      exact goodSet_addUTXO (goodSet_spendUTXO hs hsp) k2 (jsKey t.toAddress)
        (.fromTx t.txId) t.amount 0 (Or.inl ⟨t.txId, rfl, rfl⟩)

theorem processTransaction_sim (e : Env) (he : Function.Injective e.randId)
    {s : UTXOSetG TxRef} (hs : GoodSet s) (k : Nat) (t : Transaction) :
    processTransaction id e (mapUTXOSet (concRef e) e.now s) k t =
      (match processTransaction TxRef.fromTx skEnv s k t with
      | .ok (s1, k1) => .ok (mapUTXOSet (concRef e) e.now s1, k1)
      | .error err => .error err) := by
  unfold processTransaction
  cases hfa : t.fromAddress with
  | none =>
    dsimp only
    exact congrArg Except.ok
      (addUTXO_sim e s k (jsKey t.toAddress) (.fromTx t.txId) t.amount 0)
  | some fa =>
    dsimp only
    rw [spendUTXO_sim e he s hs k fa (t.amount + t.fee)]
    cases hsp : spendUTXO skEnv s k fa (t.amount + t.fee) with
    | error err => rfl
    | ok r =>
      obtain ⟨s2, k2⟩ := r
      dsimp only
      exact congrArg Except.ok
        (addUTXO_sim e s2 k2 (jsKey t.toAddress) (.fromTx t.txId) t.amount 0)

theorem applyTxs_sim (e : Env) (he : Function.Injective e.randId) :
    ∀ (txs : List Transaction) (s : UTXOSetG TxRef) (k : Nat), GoodSet s →
    (applyTxs id e (mapUTXOSet (concRef e) e.now s) k txs =
      ((mapUTXOSet (concRef e) e.now (applyTxs TxRef.fromTx skEnv s k txs).1.1,
        (applyTxs TxRef.fromTx skEnv s k txs).1.2),
       (applyTxs TxRef.fromTx skEnv s k txs).2)) ∧
    GoodSet (applyTxs TxRef.fromTx skEnv s k txs).1.1 := by
  intro txs
  induction txs with
  | nil => exact fun s k hs => ⟨rfl, hs⟩
  | cons t ts ih =>
    intro s k hs
    have hsim := processTransaction_sim e he hs k t
    cases hp : processTransaction TxRef.fromTx skEnv s k t with
    | error err =>
      rw [hp] at hsim
      refine ⟨?_, ?_⟩
      · simp only [applyTxs, hsim, hp]
      · simp only [applyTxs, hp]
        exact hs
    | ok r =>
      obtain ⟨s1, k1⟩ := r
      have hrec := ih s1 k1 (goodSet_processTransaction hs hp)
      rw [hp] at hsim
      refine ⟨?_, ?_⟩
      · simp only [applyTxs, hsim, hp]
        exact hrec.1
      · simp only [applyTxs, hp]
        exact hrec.2

theorem eraseOut_concOut {e : Env} {u : UTXOG TxRef} (hu : GoodOut u) :
    eraseOut (mapOut (concRef e) e.now u) = eraseOutRef u := by
  rcases hu with ⟨s1, h1, h0⟩ | ⟨k1, h1, h0⟩
  · unfold eraseOut eraseOutRef mapOut
    rw [h1, h0]
    simp [concRef]
  · unfold eraseOut eraseOutRef mapOut
    rw [h1, h0]
    simp [concRef]

theorem eraseSet_concSet {e : Env} {s : UTXOSetG TxRef} (hs : GoodSet s) :
    eraseSet (mapUTXOSet (concRef e) e.now s) = eraseSetRef s := by
  unfold eraseSet eraseSetRef mapUTXOSet
  dsimp only
  refine congrArg (fun l => (l, s.balances)) ?_
  rw [List.map_map]
  apply List.map_congr_left
  intro p hp
  dsimp [Function.comp]
  refine congrArg (fun l => (p.1, l)) ?_
  rw [List.map_map]
  apply List.map_congr_left
  intro u hu
  exact eraseOut_concOut (hs p hp u hu)

/-- Claim C9, counterexample.  The UTXO fold is not a pure function of
the chain: rebuilding the same one-block chain under two clocks (frozen
at 0 ms and at 1 ms) yields ledgers that differ — the single output's
stored `Date.now()` timestamp differs — so the ledger reached by applying
a prefix does not equal a later clear-and-refold of that prefix in all
fields. -/
theorem claimC9_counterexample :
    (rebuildUTXOSet e1C9 0 [blkC9]).1.1 ≠ (rebuildUTXOSet e2C9 0 [blkC9]).1.1 := by
  decide

/-- Claim C9, amended.  Rebuilding any chain prefix under two
environments (clock readings and generated-id draws) whose generated-id
streams are each injective yields ledgers that are equal after erasing
exactly the environment-dependent fields: identical balance maps, and
identical outputs up to the stored timestamps and the synthetic txIds of
change outputs. -/
theorem claimC9_amended (e1 e2 : Env) (ch : List Block) (n : Nat)
    (h1 : Function.Injective e1.randId) (h2 : Function.Injective e2.randId) :
    eraseSet (rebuildUTXOSet e1 0 (ch.take n)).1.1 =
      eraseSet (rebuildUTXOSet e2 0 (ch.take n)).1.1 := by
  unfold rebuildUTXOSet
  have hgen : ∀ (e : Env), Function.Injective e.randId →
      eraseSet (applyTxs id e emptyUTXOSet 0
        ((ch.take n).flatMap (fun b => b.transactions))).1.1 =
      eraseSetRef (applyTxs TxRef.fromTx skEnv emptyUTXOSet 0
        ((ch.take n).flatMap (fun b => b.transactions))).1.1 := by
    intro e he
    have hempty : mapUTXOSet (concRef e) e.now (emptyUTXOSet : UTXOSetG TxRef) =
        emptyUTXOSet := rfl
    have h := applyTxs_sim e he ((ch.take n).flatMap (fun b => b.transactions))
      emptyUTXOSet 0 (fun p hp => absurd hp (List.not_mem_nil p))
    rw [hempty] at h
    rw [h.1]
    exact eraseSet_concSet h.2
  rw [hgen e1 h1, hgen e2 h2]

/-- Witness for C9: two environments with different clocks but injective
id streams rebuild the one-block chain to erased-equal ledgers. -/
theorem claimC9_witness :
    Function.Injective eW1.randId ∧ Function.Injective eW2.randId ∧
    eraseSet (rebuildUTXOSet eW1 0 ([blkC9].take 1)).1.1 =
      eraseSet (rebuildUTXOSet eW2 0 ([blkC9].take 1)).1.1 := by
  have hlen : ∀ (cc : Char) (a : Nat), (String.mk (List.replicate a cc)).length = a := by
    intro cc a
    show (List.replicate a cc).length = a
    exact List.length_replicate a cc
  have hinj1 : Function.Injective eW1.randId := by
    intro a b hab
    have := congrArg String.length hab
    rwa [show eW1.randId a = String.mk (List.replicate a 'a') from rfl,
      show eW1.randId b = String.mk (List.replicate b 'a') from rfl,
      hlen 'a' a, hlen 'a' b] at this
  have hinj2 : Function.Injective eW2.randId := by
    intro a b hab
    have := congrArg String.length hab
    rwa [show eW2.randId a = String.mk (List.replicate a 'b') from rfl,
      show eW2.randId b = String.mk (List.replicate b 'b') from rfl,
      hlen 'b' a, hlen 'b' b] at this
  exact ⟨hinj1, hinj2, claimC9_amended eW1 eW2 [blkC9] 1 hinj1 hinj2⟩

end MyBlockchain
